import Mathlib

/-!
# Verification of `DynamicArray` (src/DynamicArray/DynamicArray.h)

A shallow embedding of the C++ class `DynamicArray<T>`: a contiguous growable
sequence container with fields `m_data` (owned storage pointer), `m_size`
(number of live elements) and `m_capacity` (number of allocated slots).

The embedding represents a container state by
  * `elems`    : the list of live elements, in physical/logical order
                 (the contents of slots `[0, m_size)`),
  * `capacity` : the value of `m_capacity`,
  * `alloc`    : whether `m_data != nullptr` (i.e. a storage block exists).

`std::size_t` values are modelled as `Nat`; where the C++ code performs
arithmetic that can wrap modulo `2^64` on inputs a caller can actually supply
(the `index + count` clamp test of `RemoveRange`), the wrap is made explicit
with `% W` for `W = 2^64`.  Operations that can throw `std::out_of_range`, or
whose C++ execution can reach undefined behaviour, return an `OpResult`.
-/

set_option autoImplicit false

universe u

variable {α : Type u}

/-- The value `2^64`: one more than the largest `std::size_t` value (64-bit target). -/
def W : Nat := 2 ^ 64

/-- The value `std::numeric_limits<std::size_t>::max()`. -/
def SIZE_MAX : Nat := 2 ^ 64 - 1

/-- The value `static_cast<std::size_t>(-1)`, the not-found sentinel `INDEX_NONE`. -/
def INDEX_NONE : Nat := 2 ^ 64 - 1

/-- Outcome of a `DynamicArray` member function: normal return, a thrown
`std::out_of_range` (the container is left unchanged), or reaching
undefined behaviour in the C++ abstract machine. -/
inductive OpResult (σ : Type u) where
  | ok : σ → OpResult σ
  | outOfRange : OpResult σ
  | ub : OpResult σ
  deriving DecidableEq

/-- State of a `DynamicArray<T>` object. -/
structure DynamicArray (α : Type u) where
  elems : List α
  capacity : Nat
  alloc : Bool
  deriving DecidableEq

namespace DynamicArray

/-- The default constructor: `m_data = nullptr, m_size = 0, m_capacity = 0`. -/
def mkEmpty : DynamicArray α := ⟨[], 0, false⟩

/-- The constructor `DynamicArray(count, value)`: allocates exactly `count` slots and fills
them with copies of `value`; `count == 0` gives the empty state. -/
def mkCount (count : Nat) (value : α) : DynamicArray α :=
  if count > 0 then ⟨List.replicate count value, count, true⟩ else mkEmpty

/-- The member `Size()`. -/
def Size (a : DynamicArray α) : Nat := a.elems.length

/-- The member `Capacity()`. -/
def Capacity (a : DynamicArray α) : Nat := a.capacity

/-- The member `IsEmpty()`. -/
def IsEmpty (a : DynamicArray α) : Bool := a.elems.length == 0

/-- The member `Data()`: the raw storage pointer `m_data`.  Modelled as `none` when the
pointer is null and as `some` of the live element range otherwise. -/
def Data (a : DynamicArray α) : Option (List α) :=
  if a.alloc then some a.elems else none

/-- The helper `checkRange(index, allowEnd)`: `true` exactly when the function throws
`std::out_of_range`, i.e. when `index >= m_size + (allowEnd ? 1 : 0)`. -/
def checkRange (a : DynamicArray α) (index : Nat) (allowEnd : Bool) : Bool :=
  index ≥ a.elems.length + (if allowEnd then 1 else 0)

/-- The helper `reallocate(newCapacity)`: allocates a block of `newCapacity` slots
(`allocate` returns `nullptr` exactly when `newCapacity == 0`), transfers the
first `min(m_size, newCapacity)` live elements, destroys the originals and
releases the old block (`replaceStorage`). -/
def reallocate (a : DynamicArray α) (newCapacity : Nat) : DynamicArray α :=
  { elems := a.elems.take newCapacity
    capacity := newCapacity
    alloc := newCapacity != 0 }

/-- The helper `tidy()`: `replaceStorage(nullptr, 0, 0)`. -/
def tidy (_ : DynamicArray α) : DynamicArray α := mkEmpty

/-- The helper `ensureCapacity(minCapacity)`: no-op when `minCapacity <= m_capacity`;
otherwise grows to `newCapacity = m_capacity + m_capacity/2`, replaced by
`SIZE_MAX` when that sum overflows `std::size_t`, then raised to
`minCapacity` if still smaller, and reallocates. -/
def ensureCapacity (a : DynamicArray α) (minCapacity : Nat) : DynamicArray α :=
  if minCapacity ≤ a.capacity then a
  else
    let newCapacity :=
      if a.capacity + a.capacity / 2 > SIZE_MAX then SIZE_MAX
      else a.capacity + a.capacity / 2
    let newCapacity := if newCapacity < minCapacity then minCapacity else newCapacity
    a.reallocate newCapacity

/-- The member `Reserve(newCapacity)`: reallocates exactly when `newCapacity > m_capacity`. -/
def Reserve (a : DynamicArray α) (newCapacity : Nat) : DynamicArray α :=
  if newCapacity > a.capacity then a.reallocate newCapacity else a

/-- The member `Shrink()`: no-op when tight; releases storage when `m_size == 0`;
otherwise reallocates to exactly `m_size` slots. -/
def Shrink (a : DynamicArray α) : DynamicArray α :=
  if a.elems.length = a.capacity then a
  else if a.elems.length = 0 then a.tidy
  else a.reallocate a.elems.length

/-- The member `Emplace(args...)`: ensures capacity for `m_size + 1`, constructs the new
element in slot `m_size`, increments the size, and returns a reference to the
new element (modelled as the element value, paired with the new state). -/
def Emplace (a : DynamicArray α) (x : α) : DynamicArray α × α :=
  let a2 := a.ensureCapacity (a.elems.length + 1)
  ({ a2 with elems := a2.elems ++ [x] }, x)

/-- The member `Add(value)`: forwards to `Emplace`. -/
def Add (a : DynamicArray α) (x : α) : DynamicArray α :=
  (a.Emplace x).1

/-- The member `AddRange(ilist)`: early return on an empty list; otherwise a single
capacity check for `m_size + count`, then copies the elements after the
current end. -/
def AddRange (a : DynamicArray α) (l : List α) : DynamicArray α :=
  if l.length = 0 then a
  else
    let a2 := a.ensureCapacity (a.elems.length + l.length)
    { a2 with elems := a2.elems ++ l }

/-- The member `EmplaceAt(index, args...)`: throws unless `index <= m_size`
(`checkRange(index, true)`), ensures capacity, shifts `[index, m_size)` one
slot right (`shiftRight`), constructs the new element in the freed slot. -/
def EmplaceAt (a : DynamicArray α) (index : Nat) (x : α) :
    OpResult (DynamicArray α × α) :=
  if a.checkRange index true then .outOfRange
  else
    let a2 := a.ensureCapacity (a.elems.length + 1)
    .ok ({ a2 with elems := a2.elems.take index ++ x :: a2.elems.drop index }, x)

/-- The member `Insert(index, value)`: forwards to `EmplaceAt`. -/
def Insert (a : DynamicArray α) (index : Nat) (x : α) :
    OpResult (DynamicArray α) :=
  match a.EmplaceAt index x with
  | .ok p => .ok p.1
  | .outOfRange => .outOfRange
  | .ub => .ub

/-- The member `InsertRange(index, ilist)`: bounds check with `allowEnd`, early return on
an empty list, single capacity check, `shiftRight` by `count`, then copies the
new elements into the gap. -/
def InsertRange (a : DynamicArray α) (index : Nat) (l : List α) :
    OpResult (DynamicArray α) :=
  if a.checkRange index true then .outOfRange
  else if l.length = 0 then .ok a
  else
    let a2 := a.ensureCapacity (a.elems.length + l.length)
    .ok { a2 with elems := a2.elems.take index ++ l ++ a2.elems.drop index }

/-- The member `operator[](index)` (read): throws unless `index < m_size`, else yields
`m_data[index]`.  The container itself is not modified. -/
def opIndex (a : DynamicArray α) (index : Nat) : OpResult α :=
  if h : a.checkRange index false then .outOfRange
  else .ok (a.elems.get ⟨index, by
    simp [checkRange] at h
    omega⟩)

/-- A write through the reference returned by `operator[](index)`: throws
unless `index < m_size`, else stores `x` in slot `index`. -/
def setOp (a : DynamicArray α) (index : Nat) (x : α) :
    OpResult (DynamicArray α) :=
  if a.checkRange index false then .outOfRange
  else .ok { a with elems := a.elems.set index x }

/-- A write through the raw pointer returned by `Data()` to slot `index` of
the live range (legal for `index < m_size`). -/
def writeData (a : DynamicArray α) (index : Nat) (x : α) : DynamicArray α :=
  { a with elems := a.elems.set index x }

/-- The member `RemoveAt(index)`: throws unless `index < m_size`; destroys slot `index`,
shifts the tail left by one (`shiftLeft`), decrements the size. -/
def RemoveAt (a : DynamicArray α) (index : Nat) : OpResult (DynamicArray α) :=
  if a.checkRange index false then .outOfRange
  else .ok { a with elems := a.elems.take index ++ a.elems.drop (index + 1) }

/-- The member `RemoveRange(index, count)`: throws unless `index < m_size`; early return
on `count == 0`.  The clamp test `index + count > m_size` is a `std::size_t`
comparison, so the sum wraps modulo `2^64`; when the (possibly unclamped)
count exceeds the live tail `m_size - index`, the `std::destroy_n` /
`shiftLeft` calls leave the live range and the execution is undefined. -/
def RemoveRange (a : DynamicArray α) (index count : Nat) :
    OpResult (DynamicArray α) :=
  if a.checkRange index false then .outOfRange
  else if count = 0 then .ok a
  else
    let c :=
      if (index + count) % W > a.elems.length then a.elems.length - index
      else count
    if c ≤ a.elems.length - index then
      .ok { a with elems := a.elems.take index ++ a.elems.drop (index + c) }
    else .ub

/-- The member `Find(value)`: index of the first element equal to `value`, else
`INDEX_NONE`.  The element equality `operator==` is the parameter `beq`. -/
def Find (a : DynamicArray α) (beq : α → α → Bool) (value : α) : Nat :=
  match a.elems.findIdx? (fun x => beq x value) with
  | some i => i
  | none => INDEX_NONE

/-- The member `Remove(value)`: finds the first equal element and removes it, returning
whether a removal occurred.  (When `Find` succeeds the returned index is in
range, so the inner `RemoveAt` cannot throw; the `outOfRange`/`undef` arm is
dead code kept only to make the match total.) -/
def Remove (a : DynamicArray α) (beq : α → α → Bool) (value : α) :
    DynamicArray α × Bool :=
  let index := a.Find beq value
  if index ≠ INDEX_NONE then
    match a.RemoveAt index with
    | .ok b => (b, true)
    | _ => (a, true)
  else (a, false)

/-- The read/write cursor loop of `RemoveAll`: keeps, in order, exactly the
elements for which `pred` is `false` (compacting towards the front), and
destroys the rest. -/
def removeAllGo (pred : α → Bool) : List α → List α
  | [] => []
  | x :: xs => if !pred x then x :: removeAllGo pred xs else removeAllGo pred xs

/-- The member `RemoveAll(pred)`: single-pass stable compaction; the new size is the
write cursor and the return value is `m_size - write`. -/
def RemoveAll (a : DynamicArray α) (pred : α → Bool) : DynamicArray α × Nat :=
  let kept := removeAllGo pred a.elems
  ({ a with elems := kept }, a.elems.length - kept.length)

/-- The member `Clear()`: destroys all live elements, `m_size = 0`; storage retained. -/
def Clear (a : DynamicArray α) : DynamicArray α :=
  { a with elems := [] }

/-- The member `Resize(newSize, value)`: destroys the tail when shrinking; ensures
capacity and fills the new tail with copies of `value` when growing. -/
def Resize (a : DynamicArray α) (newSize : Nat) (value : α) : DynamicArray α :=
  if newSize < a.elems.length then { a with elems := a.elems.take newSize }
  else if newSize > a.elems.length then
    let a2 := a.ensureCapacity newSize
    { a2 with elems := a2.elems ++ List.replicate (newSize - a.elems.length) value }
  else a

/-- The member `Swap(other)`: exchanges `m_data`, `m_size` and `m_capacity` member by
member; the pair is `(new this, new other)`. -/
def Swap (a other : DynamicArray α) : DynamicArray α × DynamicArray α :=
  ({ elems := other.elems, capacity := other.capacity, alloc := other.alloc },
   { elems := a.elems, capacity := a.capacity, alloc := a.alloc })

/-- The helper `assign(src, count)`: reuses the buffer when `count <= m_capacity`
(destroy all, copy `src` in); otherwise allocates a fresh block of exactly
`count` slots and installs it via `replaceStorage`. -/
def assign (a : DynamicArray α) (src : List α) : DynamicArray α :=
  if src.length ≤ a.capacity then { a with elems := src }
  else ⟨src, src.length, src.length != 0⟩

/-- The initializer-list constructor: default-construct, then `assign`. -/
def fromList (l : List α) : DynamicArray α :=
  (mkEmpty : DynamicArray α).assign l

/-- The copy constructor: default-construct, then `assign` from the source. -/
def copyCtor (other : DynamicArray α) : DynamicArray α :=
  (mkEmpty : DynamicArray α).assign other.elems

/-- Copy assignment between distinct objects: `assign(other.m_data, other.m_size)`. -/
def copyAssign (tgt other : DynamicArray α) : DynamicArray α :=
  tgt.assign other.elems

/-- Self-copy-assignment: the `this != addressof(other)` guard fails, the
body is skipped and the object is unchanged. -/
def selfCopyAssign (a : DynamicArray α) : DynamicArray α := a

/-- The move constructor `DynamicArray(DynamicArray&& other)`: exchanges the
source's members with `nullptr/0/0`.  The pair is `(new object, moved-from source)`. -/
def moveCtor (other : DynamicArray α) : DynamicArray α × DynamicArray α :=
  (⟨other.elems, other.capacity, other.alloc⟩, ⟨[], 0, false⟩)

/-- Move assignment between distinct objects: destroys the target's elements,
releases its storage, then exchanges the source's members with `nullptr/0/0`.
The pair is `(new target, moved-from source)`. -/
def moveAssign (_target other : DynamicArray α) :
    DynamicArray α × DynamicArray α :=
  (⟨other.elems, other.capacity, other.alloc⟩, ⟨[], 0, false⟩)

/-- Self-move-assignment: the `this != addressof(other)` guard fails, the
body is skipped and the object is unchanged. -/
def selfMoveAssign (a : DynamicArray α) : DynamicArray α := a

/-- The element loop of `operator==` (both lists have equal length at every
call site): `false` at the first pair related by `operator!=`. -/
def eqElemsGo (beq : α → α → Bool) : List α → List α → Bool
  | x :: xs, y :: ys => if beq x y then eqElemsGo beq xs ys else false
  | _, _ => true

/-- The comparison `operator==`: `false` on a size mismatch, else the element loop. -/
def opEq (beq : α → α → Bool) (lhs rhs : DynamicArray α) : Bool :=
  if lhs.elems.length ≠ rhs.elems.length then false
  else eqElemsGo beq lhs.elems rhs.elems

/-- The loop of `operator<=>`: compares pairwise over the common prefix
(of length `min(lhs.m_size, rhs.m_size)`), returning the first non-`eq`
element comparison, and otherwise compares the sizes. -/
def lexCmpGo (cmp : α → α → Ordering) : List α → List α → Ordering
  | x :: xs, y :: ys =>
    match cmp x y with
    | .eq => lexCmpGo cmp xs ys
    | c => c
  | xs, ys =>
    if xs.length < ys.length then .lt
    else if ys.length < xs.length then .gt
    else .eq

/-- The comparison `operator<=>`: the element comparison `<=>` is the parameter `cmp`. -/
def spaceship (cmp : α → α → Ordering) (lhs rhs : DynamicArray α) : Ordering :=
  lexCmpGo cmp lhs.elems rhs.elems

/-- The spec's three-way ordering, stated directly from its words (for
comparison against the implementation's `spaceship`): compare elements
pairwise up to the shorter length — the zipped common prefix; the first
non-equal pair determines the result; if all compared elements are equal the
shorter container orders before the longer, and equal-length pairwise-equal
containers compare equal. -/
def lexOrderSpec (cmp : α → α → Ordering) (xs ys : List α) : Ordering :=
  match (xs.zip ys).find? (fun p => cmp p.1 p.2 != Ordering.eq) with
  | some p => cmp p.1 p.2
  | none =>
    if xs.length < ys.length then .lt
    else if ys.length < xs.length then .gt
    else .eq

/-- The spec's state invariant: `0 ≤ size ≤ capacity`, and `capacity == 0`
implies the storage is the empty/null state. -/
def Inv (a : DynamicArray α) : Prop :=
  a.elems.length ≤ a.capacity ∧ (a.capacity = 0 → a.alloc = false)

instance (a : DynamicArray α) : Decidable (Inv a) :=
  inferInstanceAs (Decidable (_ ∧ _))

/-! ## Helper lemmas -/

theorem reallocate_inv (a : DynamicArray α) (c : Nat) : Inv (a.reallocate c) := by
  refine ⟨?_, ?_⟩
  · simp [reallocate, List.length_take]
  · intro h
    simp [reallocate] at h ⊢
    simp [h]

theorem ensureCapacity_capacity_ge (a : DynamicArray α) (m : Nat) :
    m ≤ (a.ensureCapacity m).capacity := by
  unfold ensureCapacity
  split
  · omega
  · simp only [reallocate]
    split <;> split <;> omega

theorem ensureCapacity_elems (a : DynamicArray α) (m : Nat)
    (h : a.elems.length ≤ m) : (a.ensureCapacity m).elems = a.elems := by
  unfold ensureCapacity
  split
  · rfl
  · simp only [reallocate]
    apply List.take_of_length_le
    split <;> split <;> omega

theorem ensureCapacity_inv (a : DynamicArray α) (m : Nat) (h : Inv a) :
    Inv (a.ensureCapacity m) := by
  unfold ensureCapacity
  split
  · exact h
  · exact reallocate_inv a _

theorem ensureCapacity_alloc (a : DynamicArray α) (m : Nat) (h : a.capacity < m) :
    (a.ensureCapacity m).alloc = true := by
  unfold ensureCapacity
  split
  · omega
  · simp only [reallocate, bne_iff_ne, ne_eq, decide_eq_true_eq]
    have hS : 0 < SIZE_MAX := by decide
    split <;> split <;> omega

theorem emplace_elems (a : DynamicArray α) (x : α) :
    (a.Emplace x).1.elems = a.elems ++ [x] := by
  simp [Emplace, ensureCapacity_elems a (a.elems.length + 1) (by omega)]

theorem emplace_capacity (a : DynamicArray α) (x : α) :
    a.elems.length + 1 ≤ (a.Emplace x).1.capacity := by
  simpa [Emplace] using ensureCapacity_capacity_ge a (a.elems.length + 1)

/-! ## Claim theorems -/

/-- C1: Append postcondition — for every container `a` of size `n` and value
`x`, after `a.Add x` (which forwards to `Emplace`) the container holds
`a.elems ++ [x]`: the size is `n + 1`, the element at index `n` is `x`, the
elements at indices `[0, n)` are unchanged, and `Emplace` returns (a
reference to) the newly constructed element. -/
theorem add_append_spec (a : DynamicArray α) (x : α) :
    (a.Add x).elems = a.elems ++ [x] ∧
    (a.Add x).Size = a.Size + 1 ∧
    ((a.Add x).elems)[a.Size]? = some x ∧
    (a.Add x).elems.take a.Size = a.elems ∧
    (a.Emplace x).2 = x ∧
    (a.Emplace x).1 = a.Add x := by
  have h : (a.Add x).elems = a.elems ++ [x] := emplace_elems a x
  refine ⟨h, ?_, ?_, ?_, rfl, rfl⟩
  · simp [Size, h]
  · rw [h]
    exact List.getElem?_concat_length _ _
  · rw [h]
    exact List.take_left _ _

/-- C2 counterexample: the claimed growth formula
`max(n, capacity + capacity/2)` does not describe `Reserve`.  Starting from
the empty container, `Reserve 10` gives capacity 10; a further `Reserve 11`
gives capacity exactly 11, not `max 11 (10 + 10/2) = 15`. -/
theorem reserve_growth_cex :
    (((mkEmpty : DynamicArray Nat).Reserve 10).Reserve 11).Capacity = 11 ∧
    ¬ (((mkEmpty : DynamicArray Nat).Reserve 10).Reserve 11).Capacity
        = max 11 (((mkEmpty : DynamicArray Nat).Reserve 10).Capacity
            + ((mkEmpty : DynamicArray Nat).Reserve 10).Capacity / 2) := by
  decide

/-- C2 amended: `Reserve n` is a no-op when `n ≤ Capacity()` and never
shrinks; when `n > Capacity()` the new capacity is exactly `n` (hence
`Capacity() ≥ n` after every call).  The growth formula
`max(m, capacity + capacity/2)` clamped to `SIZE_MAX` is implemented by the
internal `ensureCapacity`, used by the element-adding operations. -/
theorem reserve_capacity_spec (a : DynamicArray α) (n m : Nat) :
    a.Capacity ≤ (a.Reserve n).Capacity ∧
    n ≤ (a.Reserve n).Capacity ∧
    (n ≤ a.Capacity → a.Reserve n = a) ∧
    (a.Capacity < n → (a.Reserve n).Capacity = n) ∧
    (a.Capacity < m →
      (a.ensureCapacity m).Capacity
        = max m (min (a.Capacity + a.Capacity / 2) SIZE_MAX)) := by
  refine ⟨?_, ?_, ?_, ?_, ?_⟩
  · simp only [Reserve, Capacity, reallocate]
    split
    · rename_i hgt
      exact Nat.le_of_lt hgt
    · exact Nat.le_refl _
  · simp only [Reserve, Capacity, reallocate]
    split
    · exact Nat.le_refl _
    · rename_i hgt
      omega
  · intro hle
    simp only [Capacity] at hle
    simp only [Reserve]
    rw [if_neg (by omega)]
  · intro hgt
    simp only [Capacity] at hgt
    have hgt2 : n > a.capacity := hgt
    simp only [Reserve, Capacity]
    rw [if_pos hgt2]
    rfl
  · intro hgt
    simp only [Capacity] at hgt
    simp only [ensureCapacity, Capacity, reallocate]
    rw [if_neg (by omega)]
    simp only
    split <;> split <;> omega

/-- C2 witness for `reserve_capacity_spec` at concrete inputs. -/
theorem reserve_capacity_spec_witness :
    (fromList [1, 2] : DynamicArray Nat).Reserve 2 = fromList [1, 2] ∧
    ((fromList [1, 2] : DynamicArray Nat).Reserve 7).Capacity = 7 ∧
    ((fromList [1, 2] : DynamicArray Nat).ensureCapacity 3).Capacity
      = max 3 (min (2 + 2 / 2) SIZE_MAX) := by
  refine ⟨?_, ?_, ?_⟩
  · exact (reserve_capacity_spec (fromList [1, 2]) 2 3).2.2.1 (by decide)
  · exact (reserve_capacity_spec (fromList [1, 2]) 7 3).2.2.2.1 (by decide)
  · exact (reserve_capacity_spec (fromList [1, 2]) 7 3).2.2.2.2 (by decide)

/-- C3: Indexed access error contract — `operator[]` (read, and the write
through the returned reference) fails with `std::out_of_range` exactly when
`index ≥ Size()` (so always on an empty container) and otherwise yields the
element at logical index `index` (resp. stores the new value there); a
failed access leaves the container unchanged (reads are pure, and the
failing write returns no modified state). -/
theorem index_access_spec (a : DynamicArray α) (i : Nat) (x : α) :
    (a.Size ≤ i → a.opIndex i = .outOfRange ∧ a.setOp i x = .outOfRange) ∧
    (∀ h : i < a.Size, a.opIndex i = .ok (a.elems.get ⟨i, h⟩)
      ∧ a.setOp i x = .ok { a with elems := a.elems.set i x }) := by
  constructor
  · intro hle
    have hc : a.checkRange i false = true := by
      simp [checkRange, Size] at *
      omega
    constructor
    · rw [opIndex, dif_pos hc]
    · rw [setOp, if_pos hc]
  · intro h
    have hc : a.checkRange i false = false := by
      simp [checkRange, Size] at *
      omega
    constructor
    · rw [opIndex, dif_neg (by simp [hc])]
    · rw [setOp, if_neg (by simp [hc])]

/-- C3 witness for `index_access_spec`: failure on an empty container and on
an index one past the end, success below the size. -/
theorem index_access_spec_witness :
    (mkEmpty : DynamicArray Nat).opIndex 0 = .outOfRange ∧
    (fromList [7, 8] : DynamicArray Nat).opIndex 2 = .outOfRange ∧
    (fromList [7, 8] : DynamicArray Nat).opIndex 1 = .ok 8 ∧
    (fromList [7, 8] : DynamicArray Nat).setOp 1 9 = .ok ⟨[7, 9], 2, true⟩ := by
  refine ⟨?_, ?_, ?_, ?_⟩
  · exact ((index_access_spec (mkEmpty : DynamicArray Nat) 0 0).1 (by decide)).1
  · exact ((index_access_spec (fromList [7, 8] : DynamicArray Nat) 2 9).1 (by decide)).1
  · exact ((index_access_spec (fromList [7, 8] : DynamicArray Nat) 1 9).2 (by decide)).1
  · exact ((index_access_spec (fromList [7, 8] : DynamicArray Nat) 1 9).2 (by decide)).2

/-- C4 (code bug): the clamp test of `RemoveRange` is the `std::size_t`
comparison `index + count > m_size`, whose sum wraps modulo `2^64`.  On the
five-element container `{1,2,3,4,5}`, `RemoveRange(2, 2^64 - 2)` computes
`(2 + (2^64 - 2)) mod 2^64 = 0 ≤ 5`, skips the clamp, and destroys
`2^64 - 2` slots far past the live range — undefined behaviour — instead of
removing `min(count, size - index) = 3` elements as the claim requires.  A
moderately over-long count that does not wrap (here 100) is clamped exactly
as specified. -/
theorem removeRange_overflow_ub :
    (fromList [1, 2, 3, 4, 5] : DynamicArray Nat).RemoveRange 2 (2 ^ 64 - 2)
      = .ub ∧
    (fromList [1, 2, 3, 4, 5] : DynamicArray Nat).RemoveRange 2 100
      = .ok ⟨[1, 2], 5, true⟩ := by
  exact ⟨rfl, rfl⟩

/-- C5 counterexample: the member `Data()` is not the null marker whenever
`Size() == 0`.  After `Reserve 10` on an empty container, and after `Clear`
on `{1}`, the size is 0 yet `Data()` still points at the allocated block. -/
theorem data_null_cex :
    ((mkEmpty : DynamicArray Nat).Reserve 10).Size = 0 ∧
    ((mkEmpty : DynamicArray Nat).Reserve 10).Data ≠ none ∧
    ((fromList [1] : DynamicArray Nat).Clear).Size = 0 ∧
    ((fromList [1] : DynamicArray Nat).Clear).Data ≠ none := by
  decide

/-- C5 amended: the member `Data()` returns the empty/null marker exactly when no
storage block is allocated (so `Capacity() = 0` forces the null marker, and
on every reachable state the two coincide) — not whenever `Size() == 0`:
`Clear` retains the storage block, and `Reserve` on an empty container
allocates one.  When storage is allocated, `Data()` exposes the live range
`[0, size)`, and a write through it is observable through indexed access. -/
theorem data_marker_spec (a : DynamicArray α) (i : Nat) (x : α) (h : Inv a) :
    (a.Capacity = 0 → a.Data = none) ∧
    (a.alloc = true → a.Data = some a.elems) ∧
    (a.Clear).Data = (if a.alloc then some ([] : List α) else none) ∧
    (i < a.Size → (a.writeData i x).opIndex i = .ok x) := by
  refine ⟨?_, ?_, rfl, ?_⟩
  · intro hc
    simp [Data, h.2 hc]
  · intro ha
    simp [Data, ha]
  · intro hi
    simp only [Size] at hi
    have hc : (a.writeData i x).checkRange i false = false := by
      simp [checkRange, writeData]
      omega
    rw [opIndex, dif_neg (by simp [hc])]
    congr 1
    rw [List.get_eq_getElem]
    exact List.getElem_set_self _

/-- C5 witness for `data_marker_spec` at concrete inputs. -/
theorem data_marker_spec_witness :
    ((fromList [5] : DynamicArray Nat).writeData 0 7).opIndex 0 = .ok 7 ∧
    ((fromList [5] : DynamicArray Nat).Clear).Data = some [] ∧
    (mkEmpty : DynamicArray Nat).Data = none := by
  refine ⟨?_, ?_, ?_⟩
  · exact (data_marker_spec (fromList [5]) 0 7 (by decide)).2.2.2 (by decide)
  · have := (data_marker_spec (fromList [5] : DynamicArray Nat) 0 7 (by decide)).2.2.1
    simpa using this
  · exact (data_marker_spec (mkEmpty : DynamicArray Nat) 0 0 (by decide)).1 rfl

theorem removeAllGo_eq_filter (pred : α → Bool) (l : List α) :
    removeAllGo pred l = l.filter (fun y => !pred y) := by
  induction l with
  | nil => rfl
  | cons x xs ih =>
    cases hx : pred x <;> simp [removeAllGo, List.filter_cons, hx, ih]

theorem length_filter_partition (pred : α → Bool) (l : List α) :
    (l.filter pred).length + (l.filter (fun y => !pred y)).length = l.length := by
  induction l with
  | nil => rfl
  | cons x xs ih =>
    cases hx : pred x <;> simp [List.filter_cons, hx] <;> omega

/-- C6: the operation `RemoveAll pred` keeps exactly the elements for which `pred` is
false, in their original relative order (the filter of the original sequence
by the negated predicate), returns the number of elements for which `pred`
was true, and leaves the capacity unchanged. -/
theorem removeAll_filter_spec (a : DynamicArray α) (pred : α → Bool) :
    (a.RemoveAll pred).1.elems = a.elems.filter (fun y => !pred y) ∧
    (a.RemoveAll pred).2 = (a.elems.filter pred).length ∧
    (a.RemoveAll pred).1.Capacity = a.Capacity := by
  refine ⟨removeAllGo_eq_filter pred a.elems, ?_, rfl⟩
  show a.elems.length - (removeAllGo pred a.elems).length = _
  rw [removeAllGo_eq_filter pred a.elems]
  have := length_filter_partition pred a.elems
  omega

/-- C7: Move validity — after move assignment (or move construction) from a
distinct source `a` into `b`, the destination holds exactly `a`'s prior
sequence and the source is the valid empty state (`Size() = 0`,
`Capacity() = 0`, `Data()` null); self-move-assignment and
self-copy-assignment leave the container unchanged. -/
theorem move_spec (a b : DynamicArray α) :
    (moveAssign b a).1.elems = a.elems ∧
    (moveAssign b a).1.capacity = a.capacity ∧
    (moveAssign b a).2.Size = 0 ∧
    (moveAssign b a).2.Capacity = 0 ∧
    (moveAssign b a).2.Data = none ∧
    (moveCtor a).1.elems = a.elems ∧
    (moveCtor a).1.capacity = a.capacity ∧
    (moveCtor a).2 = mkEmpty ∧
    selfMoveAssign a = a ∧
    selfCopyAssign a = a :=
  ⟨rfl, rfl, rfl, rfl, rfl, rfl, rfl, rfl, rfl, rfl⟩

theorem lexCmpGo_eq_spec (cmp : α → α → Ordering) (xs ys : List α) :
    lexCmpGo cmp xs ys = lexOrderSpec cmp xs ys := by
  induction xs generalizing ys with
  | nil =>
    cases ys with
    | nil => rfl
    | cons y ys => simp [lexCmpGo, lexOrderSpec]
  | cons x xs ih =>
    cases ys with
    | nil => simp [lexCmpGo, lexOrderSpec]
    | cons y ys =>
      cases h : cmp x y with
      | lt =>
        have hb : (Ordering.lt != Ordering.eq) = true := by decide
        simp [lexCmpGo, lexOrderSpec, List.find?_cons, h, hb]
      | gt =>
        have hb : (Ordering.gt != Ordering.eq) = true := by decide
        simp [lexCmpGo, lexOrderSpec, List.find?_cons, h, hb]
      | eq =>
        have hstep : lexCmpGo cmp (x :: xs) (y :: ys) = lexCmpGo cmp xs ys := by
          simp [lexCmpGo, h]
        have hb : (Ordering.eq != Ordering.eq) = false := by decide
        rw [hstep, ih]
        unfold lexOrderSpec
        simp only [List.zip_cons_cons, List.find?_cons, h, hb]
        cases hf : ((xs.zip ys).find? fun p => cmp p.1 p.2 != Ordering.eq) with
        | some p => simp [lexOrderSpec, hf]
        | none => simp [lexOrderSpec, hf, Nat.succ_lt_succ_iff]

theorem eqElemsGo_eq_all (beq : α → α → Bool) (xs ys : List α)
    (h : xs.length = ys.length) :
    eqElemsGo beq xs ys = (xs.zip ys).all (fun p => beq p.1 p.2) := by
  induction xs generalizing ys with
  | nil =>
    cases ys with
    | nil => rfl
    | cons y ys => simp at h
  | cons x xs ih =>
    cases ys with
    | nil => simp at h
    | cons y ys =>
      simp only [List.length_cons, Nat.add_right_cancel_iff] at h
      cases hb : beq x y <;>
        simp [eqElemsGo, List.zip_cons_cons, List.all_cons, hb, ih ys h]

/-- C8: Lexicographic comparison — `operator<=>` compares elements pairwise
from index 0 up to the shorter size, the first non-equal pair determines the
result, and when all compared elements are equal the sizes decide (shorter
before longer, equal sizes equal); `operator==` is `true` iff the sizes are
equal and all elements are pairwise equal in order. -/
theorem compare_lex_spec (cmp : α → α → Ordering) (beq : α → α → Bool)
    (a b : DynamicArray α) :
    spaceship cmp a b = lexOrderSpec cmp a.elems b.elems ∧
    (opEq beq a b = true ↔
      (a.Size = b.Size ∧
        (a.elems.zip b.elems).all (fun p => beq p.1 p.2) = true)) := by
  refine ⟨lexCmpGo_eq_spec cmp a.elems b.elems, ?_⟩
  unfold opEq Size
  split
  · rename_i hne
    simp only [Bool.false_eq_true, false_iff]
    intro hcon
    exact hne hcon.1
  · rename_i hne
    have heq : a.elems.length = b.elems.length := by omega
    rw [eqElemsGo_eq_all beq a.elems b.elems heq]
    simp [heq]

theorem mkEmpty_inv : Inv (mkEmpty : DynamicArray α) :=
  ⟨Nat.le_refl 0, fun _ => rfl⟩

theorem mkCount_inv (n : Nat) (x : α) : Inv (mkCount n x) := by
  unfold mkCount
  split
  · rename_i hn
    refine ⟨by simp, fun hc => ?_⟩
    simp only at hc
    exact absurd hc (by omega)
  · exact mkEmpty_inv

theorem assign_inv (a : DynamicArray α) (l : List α) (h : Inv a) :
    Inv (a.assign l) := by
  unfold assign
  split
  · rename_i hle
    exact ⟨hle, h.2⟩
  · refine ⟨Nat.le_refl _, fun hc => ?_⟩
    simp only at hc
    simp [hc]

theorem reserve_inv (a : DynamicArray α) (n : Nat) (h : Inv a) :
    Inv (a.Reserve n) := by
  unfold Reserve
  split
  · exact reallocate_inv a n
  · exact h

theorem shrink_inv (a : DynamicArray α) (h : Inv a) : Inv a.Shrink := by
  unfold Shrink
  split
  · exact h
  · split
    · exact mkEmpty_inv
    · exact reallocate_inv a _

theorem emplace_inv (a : DynamicArray α) (x : α) : Inv ((a.Emplace x).1) := by
  have hcap := emplace_capacity a x
  have helems := emplace_elems a x
  refine ⟨?_, fun hc => ?_⟩
  · rw [helems]
    simp only [List.length_append, List.length_cons, List.length_nil]
    omega
  · exact absurd hc (by omega)

theorem addRange_inv (a : DynamicArray α) (l : List α) (h : Inv a) :
    Inv (a.AddRange l) := by
  simp only [AddRange]
  split
  · exact h
  · rename_i hne
    have hcap := ensureCapacity_capacity_ge a (a.elems.length + l.length)
    have helems := ensureCapacity_elems a (a.elems.length + l.length) (by omega)
    refine ⟨?_, fun hc => ?_⟩
    · simp only [List.length_append, helems]
      omega
    · simp only at hc
      exact absurd hc (by omega)

theorem emplaceAt_inv (a : DynamicArray α) (i : Nat) (x : α) (c : DynamicArray α)
    (y : α) (hc : a.EmplaceAt i x = .ok (c, y)) : Inv c := by
  simp only [EmplaceAt] at hc
  split at hc
  · cases hc
  · rename_i hrange
    have hi : i ≤ a.elems.length := by
      simp [checkRange] at hrange
      omega
    have hcap := ensureCapacity_capacity_ge a (a.elems.length + 1)
    have helems := ensureCapacity_elems a (a.elems.length + 1) (by omega)
    cases hc
    refine ⟨?_, fun hz => ?_⟩
    · simp only [List.length_append, List.length_cons, List.length_take,
        List.length_drop, helems]
      omega
    · simp only at hz
      exact absurd hz (by omega)

theorem insert_inv (a : DynamicArray α) (i : Nat) (x : α) (c : DynamicArray α)
    (hc : a.Insert i x = .ok c) : Inv c := by
  unfold Insert at hc
  split at hc
  · rename_i p hp
    cases hc
    exact emplaceAt_inv a i x p.1 p.2 (by rw [hp])
  · cases hc
  · cases hc

theorem insertRange_inv (a : DynamicArray α) (i : Nat) (l : List α)
    (h : Inv a) (c : DynamicArray α) (hc : a.InsertRange i l = .ok c) :
    Inv c := by
  simp only [InsertRange] at hc
  split at hc
  · cases hc
  · rename_i hrange
    have hi : i ≤ a.elems.length := by
      simp [checkRange] at hrange
      omega
    split at hc
    · cases hc
      exact h
    · rename_i hl
      have hcap := ensureCapacity_capacity_ge a (a.elems.length + l.length)
      have helems := ensureCapacity_elems a (a.elems.length + l.length) (by omega)
      cases hc
      refine ⟨?_, fun hz => ?_⟩
      · simp only [List.length_append, List.length_take, List.length_drop, helems]
        omega
      · simp only at hz
        exact absurd hz (by omega)

theorem removeAt_inv (a : DynamicArray α) (i : Nat) (h : Inv a)
    (c : DynamicArray α) (hc : a.RemoveAt i = .ok c) : Inv c := by
  unfold RemoveAt at hc
  split at hc
  · cases hc
  · cases hc
    have h1 := h.1
    refine ⟨?_, h.2⟩
    simp only [List.length_append, List.length_take, List.length_drop]
    omega

theorem removeRange_inv (a : DynamicArray α) (i k : Nat) (h : Inv a)
    (c : DynamicArray α) (hc : a.RemoveRange i k = .ok c) : Inv c := by
  simp only [RemoveRange] at hc
  split at hc
  · cases hc
  · split at hc
    · cases hc
      exact h
    · split at hc
      · split at hc
        · cases hc
          have h1 := h.1
          refine ⟨?_, h.2⟩
          simp only [List.length_append, List.length_take, List.length_drop]
          omega
        · cases hc
      · split at hc
        · cases hc
          have h1 := h.1
          refine ⟨?_, h.2⟩
          simp only [List.length_append, List.length_take, List.length_drop]
          omega
        · cases hc

theorem remove_inv (a : DynamicArray α) (beq : α → α → Bool) (value : α)
    (h : Inv a) : Inv (a.Remove beq value).1 := by
  simp only [Remove]
  split
  · split
    · rename_i b hb
      exact removeAt_inv a _ h b hb
    · exact h
  · exact h

theorem removeAll_inv (a : DynamicArray α) (pred : α → Bool) (h : Inv a) :
    Inv (a.RemoveAll pred).1 := by
  have hlen : (removeAllGo pred a.elems).length ≤ a.elems.length := by
    rw [removeAllGo_eq_filter]
    exact List.length_filter_le _ _
  have h1 := h.1
  exact ⟨by simpa [RemoveAll] using by omega, h.2⟩

theorem resize_inv (a : DynamicArray α) (n : Nat) (x : α) (h : Inv a) :
    Inv (a.Resize n x) := by
  simp only [Resize]
  split
  · have h1 := h.1
    refine ⟨?_, h.2⟩
    simp only [List.length_take]
    omega
  · split
    · rename_i hgt
      have hcap := ensureCapacity_capacity_ge a n
      have helems := ensureCapacity_elems a n (by omega)
      refine ⟨?_, fun hz => ?_⟩
      · simp only [List.length_append, List.length_replicate, helems]
        omega
      · simp only at hz
        exact absurd hz (by omega)
    · exact h

theorem clear_inv (a : DynamicArray α) (h : Inv a) : Inv a.Clear :=
  ⟨Nat.zero_le _, h.2⟩

theorem setOp_inv (a : DynamicArray α) (i : Nat) (x : α) (h : Inv a)
    (c : DynamicArray α) (hc : a.setOp i x = .ok c) : Inv c := by
  unfold setOp at hc
  split at hc
  · cases hc
  · cases hc
    have h1 := h.1
    refine ⟨?_, h.2⟩
    simp only [List.length_set]
    omega

/-- C9: Size-capacity invariant — every public operation preserves
`0 ≤ size ≤ capacity` together with "`capacity == 0` implies the storage is
the empty/null state" (`Inv`): constructors and assignments establish or
preserve it, and so do `Reserve`, `Shrink`, the insertion operations (on
their non-throwing results), the removal operations, `Resize`, `Clear`,
`Swap` and the indexed write.  Element reads (`operator[]`, `Data`), the
size/capacity queries, the lookups and the comparisons do not modify the
state at all, so they preserve it trivially. -/
theorem invariant_preservation (a b : DynamicArray α) (x value : α)
    (l : List α) (i k n : Nat) (pred : α → Bool) (beq : α → α → Bool)
    (ha : Inv a) (hb : Inv b) :
    Inv (mkEmpty : DynamicArray α) ∧
    Inv (mkCount n x) ∧
    Inv (fromList l) ∧
    Inv (copyCtor a) ∧
    Inv (copyAssign a b) ∧
    Inv a.selfCopyAssign ∧
    Inv ((moveAssign b a).1) ∧
    Inv ((moveAssign b a).2) ∧
    Inv ((moveCtor a).1) ∧
    Inv ((moveCtor a).2) ∧
    Inv a.selfMoveAssign ∧
    Inv (a.Reserve n) ∧
    Inv a.Shrink ∧
    Inv ((a.Emplace x).1) ∧
    Inv (a.Add x) ∧
    Inv (a.AddRange l) ∧
    (∀ c y, a.EmplaceAt i x = .ok (c, y) → Inv c) ∧
    (∀ c, a.Insert i x = .ok c → Inv c) ∧
    (∀ c, a.InsertRange i l = .ok c → Inv c) ∧
    Inv (a.Remove beq value).1 ∧
    (∀ c, a.RemoveAt i = .ok c → Inv c) ∧
    (∀ c, a.RemoveRange i k = .ok c → Inv c) ∧
    Inv (a.RemoveAll pred).1 ∧
    Inv (a.Resize n x) ∧
    Inv a.Clear ∧
    (∀ c, a.setOp i x = .ok c → Inv c) ∧
    Inv ((a.Swap b).1) ∧
    Inv ((a.Swap b).2) := by
  refine ⟨mkEmpty_inv, mkCount_inv n x, assign_inv _ l mkEmpty_inv,
    assign_inv _ a.elems mkEmpty_inv, assign_inv a b.elems ha, ha,
    ha, mkEmpty_inv, ha, mkEmpty_inv, ha,
    reserve_inv a n ha, shrink_inv a ha, emplace_inv a x, emplace_inv a x,
    addRange_inv a l ha,
    fun c y hc => emplaceAt_inv a i x c y hc,
    fun c hc => insert_inv a i x c hc,
    fun c hc => insertRange_inv a i l ha c hc,
    remove_inv a beq value ha,
    fun c hc => removeAt_inv a i ha c hc,
    fun c hc => removeRange_inv a i k ha c hc,
    removeAll_inv a pred ha,
    resize_inv a n x ha,
    clear_inv a ha,
    fun c hc => setOp_inv a i x ha c hc,
    hb, ha⟩

/-- C9 witness for `invariant_preservation` at concrete inputs. -/
theorem invariant_preservation_witness :
    Inv ((fromList [1, 2, 3] : DynamicArray Nat).Add 4) ∧
    Inv ((fromList [1, 2, 3] : DynamicArray Nat).Reserve 7) ∧
    Inv ((fromList [1, 2, 3] : DynamicArray Nat).Clear) := by
  have h := invariant_preservation (fromList [1, 2, 3] : DynamicArray Nat)
    (fromList [9]) 4 2 [5, 6] 1 2 7 (fun v => v > 2) (fun u v => u == v)
    (by decide) (by decide)
  exact ⟨h.2.2.2.2.2.2.2.2.2.2.2.2.2.2.1,
    h.2.2.2.2.2.2.2.2.2.2.2.1,
    h.2.2.2.2.2.2.2.2.2.2.2.2.2.2.2.2.2.2.2.2.2.2.2.2.1⟩

/-- C10: Swap exchange — `a.Swap b` exchanges the entire contents of the two
containers member by member (afterwards the first result holds exactly `b`'s
prior elements and capacity, the second exactly `a`'s), it always succeeds
(it is a total function on states), and swapping twice restores both
containers. -/
theorem swap_spec (a b : DynamicArray α) :
    (a.Swap b).1.elems = b.elems ∧
    (a.Swap b).1.Capacity = b.Capacity ∧
    (a.Swap b).2.elems = a.elems ∧
    (a.Swap b).2.Capacity = a.Capacity ∧
    ((a.Swap b).1.Swap (a.Swap b).2) = (a, b) :=
  ⟨rfl, rfl, rfl, rfl, rfl⟩

end DynamicArray
